import Mathlib

/-!
Shallow embedding of the glimpse server core (crates/glimpse-server/src):
the UDP fan-out loop (handlers/udp.rs), the WebSocket connection teardown
(handlers/websocket.rs), the periodic-task scheduler (tick.rs) and the
top-level run error policy (server.rs). Machine time (tokio Instant) is
modelled as Nat milliseconds; durations as Nat milliseconds.
-/

namespace Glimpse

/-- A WebSocket frame (warp ws Message): text or binary with byte content. -/
inductive Frame where
  | text (content : List Nat)
  | binary (content : List Nat)
deriving DecidableEq, Repr

/-- One subscriber's outbound unbounded mpsc queue. `closed` models the
receiver half having been dropped (the write task exited), in which case
UnboundedSender.send returns Err. -/
structure Queue where
  closed : Bool
  msgs : List Frame
deriving DecidableEq, Repr

/-- UnboundedSender.send: enqueue when open (returns ok), fail without
side effect when the queue is closed. -/
def Queue.send (q : Queue) (f : Frame) : Queue × Bool :=
  if q.closed then (q, false) else ({ q with msgs := q.msgs ++ [f] }, true)

/-- The Clients registry (types.rs): a map client id to queue sender,
modelled as an association list. -/
abbrev Clients := List (String × Queue)

/-- Is `b` a UTF-8 continuation byte (0x80..0xBF)? -/
def isCont (b : Nat) : Bool := 0x80 ≤ b && b ≤ 0xBF

/-- UTF-8 validity of a byte sequence, as String.from_utf8 checks it:
rejects overlong encodings, surrogates and code points above U+10FFFF. -/
def utf8Valid : List Nat → Bool
  | [] => true
  | b :: rest =>
    if b ≤ 0x7F then utf8Valid rest
    else if b ≤ 0xC1 then false
    else if b ≤ 0xDF then
      match rest with
      | c1 :: r => isCont c1 && utf8Valid r
      | [] => false
    else if b ≤ 0xEF then
      match rest with
      | c1 :: c2 :: r =>
          (if b = 0xE0 then 0xA0 ≤ c1 && c1 ≤ 0xBF
           else if b = 0xED then 0x80 ≤ c1 && c1 ≤ 0x9F
           else isCont c1) && isCont c2 && utf8Valid r
      | _ => false
    else if b ≤ 0xF4 then
      match rest with
      | c1 :: c2 :: c3 :: r =>
          (if b = 0xF0 then 0x90 ≤ c1 && c1 ≤ 0xBF
           else if b = 0xF4 then 0x80 ≤ c1 && c1 ≤ 0x8F
           else isCont c1) && isCont c2 && isCont c3 && utf8Valid r
      | _ => false
    else false

/-- The fan-out in handle_udp_messages: for each registry entry, send a
text frame with the decoded message on its queue; a failed send is only
logged, the entry stays. -/
def broadcast (clients : Clients) (message : List Nat) : Clients :=
  clients.map (fun c => (c.1, (c.2.send (Frame.text message)).1))

/-- One iteration's input to the select in handle_udp_messages. -/
inductive UdpEvent where
  | recv (bytes : List Nat)
  | recvErr
  | shutdown
deriving DecidableEq, Repr

/-- One iteration of the loop in handle_udp_messages: the new registry and
whether the loop continues. A datagram that decodes broadcasts; a decode
failure or receive error only logs; shutdown breaks the loop. -/
def handle_udp_step (clients : Clients) : UdpEvent → Clients × Bool
  | .recv bytes =>
      if utf8Valid bytes then (broadcast clients bytes, true)
      else (clients, true)
  | .recvErr => (clients, true)
  | .shutdown => (clients, false)

/-- The whole receive loop over a trace of events, stopping at shutdown. -/
def handle_udp_messages (clients : Clients) : List UdpEvent → Clients
  | [] => clients
  | e :: rest =>
      let r := handle_udp_step clients e
      if r.2 then handle_udp_messages r.1 rest else r.1

/-- Did the step ask to continue? True except on shutdown. -/
def udpContinues (e : UdpEvent) : Bool :=
  match e with
  | .shutdown => false
  | _ => true

/-- State touched by handle_websocket_client's teardown: the shared
registry and the liveness of the connection's two spawned tasks. -/
structure ConnState where
  clients : Clients
  sendTaskAlive : Bool
  recvTaskAlive : Bool
deriving DecidableEq, Repr

/-- The primitive teardown actions after the select in
handle_websocket_client. -/
inductive CloseAction where
  | abortSend
  | abortRecv
  | unregister
deriving DecidableEq, Repr

/-- The order the source performs them: ws_send_task.abort();
ws_receive_task.abort(); clients.remove(client_id). -/
def closeSequence : List CloseAction := [.abortSend, .abortRecv, .unregister]

/-- Effect of one teardown action on the connection state. -/
def applyCloseAction (id : String) (s : ConnState) : CloseAction → ConnState
  | .abortSend => { s with sendTaskAlive := false }
  | .abortRecv => { s with recvTaskAlive := false }
  | .unregister => { s with clients := s.clients.filter (fun c => c.1 ≠ id) }

/-- The full teardown, in source order. -/
def websocket_close (id : String) (s : ConnState) : ConnState :=
  closeSequence.foldl (applyCloseAction id) s

/-- A tick.rs TickableEntry. The boxed tickable is modelled by `ticks`,
a fire counter (exactly the TestTickable of the module's tests); times
are Nat milliseconds. -/
structure TickableEntry where
  frequency : Nat
  last_tick : Nat
  next_tick : Nat
  ticks : Nat
deriving DecidableEq, Repr

/-- TickableEntry::new: last_tick = now, next_tick = now + frequency. -/
def TickableEntry.new (now : Nat) (frequency : Nat) : TickableEntry :=
  { frequency := frequency, last_tick := now, next_tick := now + frequency
    ticks := 0 }

/-- TickableEntry::update_next_tick. -/
def TickableEntry.update_next_tick (e : TickableEntry) : TickableEntry :=
  { e with next_tick := e.last_tick + e.frequency }

/-- The body of the for loop in Ticker::start for one entry: fire when
now >= next_tick (note: `now` is the instant sampled at the top of the
loop iteration, before the sleep), then last_tick = now and
update_next_tick. -/
def fireOne (now : Nat) (e : TickableEntry) : TickableEntry :=
  if e.next_tick ≤ now then
    TickableEntry.update_next_tick { e with ticks := e.ticks + 1, last_tick := now }
  else e

/-- entries.iter().map(next_tick).min(): None on an empty list. -/
def minDeadline : List TickableEntry → Option Nat
  | [] => none
  | e :: rest =>
      match minDeadline rest with
      | none => some e.next_tick
      | some m => some (min e.next_tick m)

/-- One iteration of the loop spawned by Ticker::start: sample now,
compute the min next_tick with fallback now + 1000 ms, sleep until it if
it is in the future, then scan all entries firing those with
next_tick <= now (the pre-sleep sample). Returns the new entry list and
the time at the moment of waking. -/
def tickerIter (entries : List TickableEntry) (now : Nat) :
    List TickableEntry × Nat :=
  let next_tick := (minDeadline entries).getD (now + 1000)
  let wake := if now < next_tick then next_tick else now
  (entries.map (fireOne now), wake)

/-- Ticker::add_tickable: push a fresh entry. -/
def Ticker.add_tickable (entries : List TickableEntry) (now frequency : Nat) :
    List TickableEntry :=
  entries ++ [TickableEntry.new now frequency]

/-- The entry invariant of tick.rs: next_tick = last_tick + frequency. -/
abbrev tickInv (e : TickableEntry) : Prop :=
  e.next_tick = e.last_tick + e.frequency

/-- The scheduler control state that Ticker::start, Ticker::stop and the
spawned loops share: the running flag, plus the number of live background
loops (not a field of the source struct: a loop is live from its
tokio::spawn until it reads the flag false at the top of its while).
Ticker::new yields running = false and no live loop. -/
structure TickerSys where
  running : Bool
  liveLoops : Nat
deriving DecidableEq, Repr

/-- The interleaved atomic actions on that state: a call to
Ticker::start (the gate: return at once when the flag is set, else set
it and spawn one loop), a call to Ticker::stop (clear the flag), and one
live loop evaluating its while condition (exit when the flag is false,
keep running when it is true). -/
inductive TickerOp where
  | start
  | stop
  | loopCheck
deriving DecidableEq, Repr

/-- One action's effect on the scheduler control state. -/
def tickerStep (s : TickerSys) : TickerOp → TickerSys
  | .start =>
      if s.running then s
      else { running := true, liveLoops := s.liveLoops + 1 }
  | .stop => { s with running := false }
  | .loopCheck =>
      if s.running then s else { s with liveLoops := s.liveLoops - 1 }

/-- error.rs ServerError, payloads reduced to codes. -/
inductive ServerError where
  | ioErr (code : Nat)
  | webSocketErr (code : Nat)
  | addrParseErr (code : Nat)
  | utf8Err (code : Nat)
  | channelErr (msg : String)
deriving DecidableEq, Repr

/-- The non-fatal outcomes of everything Server::run spawns: transport
receive errors, decode failures and per-subscriber send failures inside
the UDP handler, connection failures inside the gateway, and a failed
shutdown-signal send. None of them reaches run's return value. -/
structure OtherOutcomes where
  recvErrors : Nat
  decodeFailures : Nat
  sendFailures : Nat
  connectionFailures : Nat
  shutdownSendFailed : Bool
deriving DecidableEq, Repr

/-- Server::create_udp_socket: wrap a bind failure in ServerError::Io. -/
def create_udp_socket (bindResult : Except Nat Unit) : Except ServerError Unit :=
  match bindResult with
  | .ok u => .ok u
  | .error e => .error (.ioErr e)

/-- Server::run: propagate a bind failure with ?; every later step only
spawns tasks (whose outcomes are `other`) and joins them discarding the
join result, then returns Ok(()). -/
def Server.run (bindResult : Except Nat Unit) (other : OtherOutcomes) :
    Except ServerError Unit :=
  match create_udp_socket bindResult with
  | .error e => .error e
  | .ok _ =>
      let _ := other
      .ok ()

/-- Is an Except an ok value? -/
def exceptOk {ε α : Type} : Except ε α → Bool
  | .ok _ => true
  | .error _ => false

/-! ## Helper lemmas -/

/-- Firing an entry re-establishes the entry invariant; not firing keeps it. -/
theorem tickInv_fireOne (now : Nat) (e : TickableEntry) (h : tickInv e) :
    tickInv (fireOne now e) := by
  unfold fireOne TickableEntry.update_next_tick
  split
  · rfl
  · exact h

/-- The minimum deadline is none exactly on an empty entry list. -/
theorem minDeadline_isNone_eq (es : List TickableEntry) :
    (minDeadline es).isNone = es.isEmpty := by
  cases es with
  | nil => rfl
  | cons e rest =>
      cases h : minDeadline rest <;> simp [minDeadline, h]

/-- On a nonempty list, the minimum deadline is one of the deadlines. -/
theorem minDeadline_mem (es : List TickableEntry) (h : es ≠ []) :
    ∃ m, minDeadline es = some m ∧ m ∈ es.map (fun e => e.next_tick) := by
  induction es with
  | nil => exact absurd rfl h
  | cons e rest ih =>
      cases h2 : minDeadline rest with
      | none => exact ⟨e.next_tick, by simp [minDeadline, h2]⟩
      | some m =>
          have hrest : rest ≠ [] := by
            intro hr
            rw [hr] at h2
            exact Option.noConfusion h2
          obtain ⟨m2, hm2, hmem⟩ := ih hrest
          rw [h2] at hm2
          obtain rfl : m = m2 := Option.some.inj hm2
          rcases le_total e.next_tick m with hle | hge
          · exact ⟨min e.next_tick m, by simp [minDeadline, h2],
              by simp [Nat.min_eq_left hle]⟩
          · refine ⟨min e.next_tick m, by simp [minDeadline, h2], ?_⟩
            rw [Nat.min_eq_right hge]
            simp only [List.map_cons, List.mem_cons]
            exact Or.inr hmem

/-- The minimum deadline bounds every entry's deadline from below. -/
theorem minDeadline_le (es : List TickableEntry) (m : Nat)
    (h : minDeadline es = some m) : ∀ x ∈ es, m ≤ x.next_tick := by
  induction es generalizing m with
  | nil => exact Option.noConfusion h
  | cons e rest ih =>
      intro x hx
      cases h2 : minDeadline rest with
      | none =>
          rw [minDeadline, h2] at h
          obtain rfl : m = e.next_tick := (Option.some.inj h).symm
          have : rest.isEmpty = true := by
            rw [← minDeadline_isNone_eq, h2]
            rfl
          rcases List.mem_cons.mp hx with rfl | hx2
          · exact le_refl _
          · rw [List.isEmpty_iff] at this
            rw [this] at hx2
            exact absurd hx2 (List.not_mem_nil x)
      | some m2 =>
          rw [minDeadline, h2] at h
          obtain rfl : m = min e.next_tick m2 := (Option.some.inj h).symm
          rcases List.mem_cons.mp hx with rfl | hx2
          · exact Nat.min_le_left _ _
          · exact le_trans (Nat.min_le_right _ _) (ih m2 h2 x hx2)

/-- getD of a list of invariant-satisfying entries, with an
invariant-satisfying default, satisfies the invariant. -/
theorem tickInv_getD (l : List TickableEntry) (i : Nat) (d : TickableEntry)
    (hd : tickInv d) (h : ∀ e ∈ l, tickInv e) : tickInv (l.getD i d) := by
  induction l generalizing i with
  | nil => exact hd
  | cons a l ih =>
      cases i with
      | zero => exact h a (List.mem_cons_self a l)
      | succ n => exact ih n (fun e he => h e (List.mem_cons_of_mem a he))

/-- In a history without Ticker::stop, the state invariant "at most one
live loop, and none while the flag is clear" is preserved by every
action. -/
theorem tickerStep_no_stop_inv (ops : List TickerOp) (s : TickerSys)
    (hstop : TickerOp.stop ∉ ops)
    (hinv : s.liveLoops ≤ 1 ∧ (s.running = false → s.liveLoops = 0)) :
    (ops.foldl tickerStep s).liveLoops ≤ 1 ∧
    ((ops.foldl tickerStep s).running = false →
      (ops.foldl tickerStep s).liveLoops = 0) := by
  induction ops generalizing s with
  | nil => exact hinv
  | cons op rest ih =>
      have hop : op ≠ TickerOp.stop := by
        intro h
        exact hstop (h ▸ List.mem_cons_self op rest)
      have hrest : TickerOp.stop ∉ rest :=
        fun h => hstop (List.mem_cons_of_mem op h)
      refine ih (tickerStep s op) hrest ?_
      obtain ⟨h1, h2⟩ := hinv
      cases op with
      | start =>
          by_cases hr : s.running = true
          · have hs : tickerStep s TickerOp.start = s := by
              simp [tickerStep, hr]
            rw [hs]
            exact ⟨h1, h2⟩
          · have hf : s.running = false := Bool.not_eq_true s.running ▸ hr
            have h0 : s.liveLoops = 0 := h2 hf
            simp [tickerStep, hf, h0]
      | stop => exact absurd rfl hop
      | loopCheck =>
          by_cases hr : s.running = true
          · have hs : tickerStep s TickerOp.loopCheck = s := by
              simp [tickerStep, hr]
            rw [hs]
            exact ⟨h1, h2⟩
          · have hf : s.running = false := Bool.not_eq_true s.running ▸ hr
            have h0 : s.liveLoops = 0 := h2 hf
            simp [tickerStep, hf, h0]

/-- Removing an id from the registry leaves no entry carrying that id. -/
theorem not_mem_filter_fst (l : Clients) (id : String) :
    id ∉ (l.filter (fun c => c.1 ≠ id)).map Prod.fst := by
  intro hmem
  obtain ⟨c, hc, hfst⟩ := List.mem_map.mp hmem
  have := List.of_mem_filter hc
  simp only [decide_eq_true_eq] at this
  exact this hfst

/-! ## Claim theorems -/

/-- C4: a datagram that fails UTF-8 decoding causes no send to any
subscriber queue, the registry is unchanged, and the loop continues. -/
theorem udp_invalid_payload_dropped (cs : Clients) (p : List Nat)
    (h : utf8Valid p = false) :
    handle_udp_step cs (UdpEvent.recv p) = (cs, true) := by
  simp [handle_udp_step, h]

/-- C4 witness: the single byte 0xFF is not valid UTF-8, and stepping on
it leaves the one-subscriber registry untouched with the loop alive. -/
theorem udp_invalid_payload_dropped_witness :
    handle_udp_step [("a", Queue.mk false [])] (UdpEvent.recv [255]) =
      ([("a", Queue.mk false [])], true) :=
  udp_invalid_payload_dropped [("a", Queue.mk false [])] [255] (by decide)

/-- C7: one step of the receive loop continues exactly when the event is
not the shutdown signal: receive errors and datagrams (decodable or not)
keep the loop running, and at loop level a receive error is skipped while
shutdown ends the run ignoring the rest of the trace. -/
theorem udp_loop_exits_only_on_shutdown (cs : Clients) (e : UdpEvent)
    (p : List Nat) (rest : List UdpEvent) :
    (handle_udp_step cs e).2 = udpContinues e ∧
    udpContinues (UdpEvent.recv p) = true ∧
    udpContinues UdpEvent.recvErr = true ∧
    udpContinues UdpEvent.shutdown = false ∧
    handle_udp_messages cs (UdpEvent.recvErr :: rest) =
      handle_udp_messages cs rest ∧
    handle_udp_messages cs (UdpEvent.shutdown :: rest) = cs := by
  refine ⟨?_, rfl, rfl, rfl, rfl, rfl⟩
  cases e with
  | recv bytes =>
      by_cases hv : utf8Valid bytes = true <;>
        simp [handle_udp_step, udpContinues, hv]
  | recvErr => rfl
  | shutdown => rfl

/-- C9: Server::run fails exactly when the UDP bind fails, the failure is
the Io-wrapped bind error, and the result is independent of every
non-fatal outcome of the spawned components. -/
theorem run_error_iff_bind_failure (b : Except Nat Unit)
    (o o2 : OtherOutcomes) (e : Nat) :
    Server.run b o = Server.run b o2 ∧
    exceptOk (Server.run b o) = exceptOk b ∧
    Server.run (Except.error e) o = Except.error (ServerError.ioErr e) ∧
    Server.run (Except.ok ()) o = Except.ok () := by
  cases b with
  | ok u => exact ⟨rfl, rfl, rfl, rfl⟩
  | error c => exact ⟨rfl, rfl, rfl, rfl⟩

/-- C10 counterexample: from a fresh Ticker, the history start, stop,
start leaves two live scheduler loops: the second start finds the flag
cleared and spawns again while the first loop, which never evaluated its
while condition between the stop and the restart, is still live — and a
subsequent while-check reads the re-set flag as true, so both loops keep
running. -/
theorem ticker_stop_start_two_loops :
    ([TickerOp.start, TickerOp.stop, TickerOp.start].foldl tickerStep
      (TickerSys.mk false 0)).liveLoops = 2 ∧
    (tickerStep
      ([TickerOp.start, TickerOp.stop, TickerOp.start].foldl tickerStep
        (TickerSys.mk false 0)) TickerOp.loopCheck).liveLoops = 2 :=
  ⟨rfl, rfl⟩

/-- C10 (amended): Ticker::start is idempotent — a call that finds the
running flag set returns without spawning, so the flag ends true and the
live-loop count grows by one only from a stopped state; and for a fresh
Ticker whose history contains no Ticker::stop, at most one scheduler
loop is ever live. (After a stop and a restart the bound can be
exceeded: see the counterexample.) -/
theorem ticker_start_gate_and_single_loop (s : TickerSys)
    (ops : List TickerOp) (hstop : TickerOp.stop ∉ ops) :
    tickerStep (tickerStep s TickerOp.start) TickerOp.start
      = tickerStep s TickerOp.start ∧
    (tickerStep s TickerOp.start).running = true ∧
    (tickerStep s TickerOp.start).liveLoops =
      s.liveLoops + (if s.running then 0 else 1) ∧
    (ops.foldl tickerStep (TickerSys.mk false 0)).liveLoops ≤ 1 := by
  refine ⟨?_, ?_, ?_, ?_⟩
  · by_cases h : s.running = true <;> simp [tickerStep, h]
  · by_cases h : s.running = true <;> simp [tickerStep, h]
  · by_cases h : s.running = true <;> simp [tickerStep, h]
  · exact (tickerStep_no_stop_inv ops (TickerSys.mk false 0) hstop
      ⟨Nat.zero_le 1, fun _ => rfl⟩).1

/-- C10 witness: a stop-free history of two starts with a while-check
between them, from a fresh Ticker, ends with a single live loop, and the
start gate behaves idempotently on the fresh state. -/
theorem ticker_start_gate_and_single_loop_witness :
    tickerStep (tickerStep (TickerSys.mk false 0) TickerOp.start)
      TickerOp.start = tickerStep (TickerSys.mk false 0) TickerOp.start ∧
    (tickerStep (TickerSys.mk false 0) TickerOp.start).running = true ∧
    (tickerStep (TickerSys.mk false 0) TickerOp.start).liveLoops =
      (TickerSys.mk false 0).liveLoops +
        (if (TickerSys.mk false 0).running then 0 else 1) ∧
    ([TickerOp.start, TickerOp.loopCheck, TickerOp.start].foldl tickerStep
      (TickerSys.mk false 0)).liveLoops ≤ 1 :=
  ticker_start_gate_and_single_loop (TickerSys.mk false 0)
    [TickerOp.start, TickerOp.loopCheck, TickerOp.start] (by decide)

/-- C1: a datagram that decodes as UTF-8 is fanned out by the receive
loop: every registered subscriber whose queue is open gets exactly one
new frame, a text frame carrying the verbatim payload, appended to its
queue; the registry keeps the same length, so no subscriber is visited
twice. -/
theorem udp_broadcast_fanout (cs : Clients) (p : List Nat) (i : Nat)
    (hi : i < cs.length) (hvalid : utf8Valid p = true)
    (hopen : cs[i].2.closed = false) :
    (handle_udp_step cs (UdpEvent.recv p)).1[i]? =
      some (cs[i].1, Queue.mk false (cs[i].2.msgs ++ [Frame.text p])) ∧
    (handle_udp_step cs (UdpEvent.recv p)).1.length = cs.length := by
  constructor
  · rcases hq : cs[i].2 with ⟨cl, ms⟩
    rw [hq] at hopen
    subst hopen
    simp [handle_udp_step, hvalid, broadcast, List.getElem?_map,
      List.getElem?_eq_getElem hi, Queue.send, hq]
  · simp [handle_udp_step, hvalid, broadcast]

/-- C1 witness: the payload "hi" ([104, 105]) reaches the single open
subscriber as exactly one appended text frame. -/
theorem udp_broadcast_fanout_witness :
    (handle_udp_step [("a", Queue.mk false [])]
        (UdpEvent.recv [104, 105])).1[0]? =
      some ("a", Queue.mk false [Frame.text [104, 105]]) ∧
    (handle_udp_step [("a", Queue.mk false [])]
        (UdpEvent.recv [104, 105])).1.length = 1 :=
  udp_broadcast_fanout [("a", Queue.mk false [])] [104, 105] 0
    (by decide) (by decide) (by decide)

/-- C5: when subscriber i's queue is closed, the fan-out still reaches
every other subscriber with an open queue, the set of registered ids is
unchanged, and subscriber i's entry stays in the registry untouched. -/
theorem broadcast_send_failure_isolated (cs : Clients) (p : List Nat)
    (i j : Nat) (hi : i < cs.length) (hj : j < cs.length)
    (hclosed : cs[i].2.closed = true) (hopen : cs[j].2.closed = false) :
    (broadcast cs p).map Prod.fst = cs.map Prod.fst ∧
    (broadcast cs p)[i]? = some cs[i] ∧
    (broadcast cs p)[j]? =
      some (cs[j].1, Queue.mk false (cs[j].2.msgs ++ [Frame.text p])) := by
  refine ⟨?_, ?_, ?_⟩
  · rw [broadcast, List.map_map]
    rfl
  · rcases hq : cs[i].2 with ⟨cl, ms⟩
    rw [hq] at hclosed
    subst hclosed
    simp [broadcast, List.getElem?_map, List.getElem?_eq_getElem hi,
      Queue.send, hq]
    rw [← hq]
  · rcases hq : cs[j].2 with ⟨cl, ms⟩
    rw [hq] at hopen
    subst hopen
    simp [broadcast, List.getElem?_map, List.getElem?_eq_getElem hj,
      Queue.send, hq]

/-- C5 witness: with subscriber "a" closed and subscriber "b" open, the
broadcast leaves the id list and the closed entry intact and appends the
frame to the open queue. -/
theorem broadcast_send_failure_isolated_witness :
    (broadcast [("a", Queue.mk true []), ("b", Queue.mk false [])]
        [104, 105]).map Prod.fst =
      ([("a", Queue.mk true []), ("b", Queue.mk false [])] :
        Clients).map Prod.fst ∧
    (broadcast [("a", Queue.mk true []), ("b", Queue.mk false [])]
        [104, 105])[0]? = some ("a", Queue.mk true []) ∧
    (broadcast [("a", Queue.mk true []), ("b", Queue.mk false [])]
        [104, 105])[1]? =
      some ("b", Queue.mk false [Frame.text [104, 105]]) :=
  broadcast_send_failure_isolated
    [("a", Queue.mk true []), ("b", Queue.mk false [])] [104, 105] 0 1
    (by decide) (by decide) (by decide) (by decide)

/-- C6: along the teardown sequence of handle_websocket_client, any
prefix of actions that has already changed the registry has already
aborted both the writer and the reader task (cancel strictly before
unregister), and the completed teardown leaves both tasks aborted and
the connection's id absent from the registry. -/
theorem websocket_close_cancel_before_unregister (s : ConnState)
    (id : String) (k : Nat)
    (hch : ((closeSequence.take k).foldl (applyCloseAction id) s).clients ≠
      s.clients) :
    ((closeSequence.take k).foldl (applyCloseAction id) s).sendTaskAlive
        = false ∧
    ((closeSequence.take k).foldl (applyCloseAction id) s).recvTaskAlive
        = false ∧
    (websocket_close id s).sendTaskAlive = false ∧
    (websocket_close id s).recvTaskAlive = false ∧
    id ∉ (websocket_close id s).clients.map Prod.fst := by
  have hfinal : websocket_close id s =
      ConnState.mk (s.clients.filter (fun c => c.1 ≠ id)) false false := rfl
  refine ⟨?_, ?_, by rw [hfinal], by rw [hfinal], ?_⟩
  · match k with
    | 0 => exact absurd rfl hch
    | 1 => exact absurd rfl hch
    | 2 => exact absurd rfl hch
    | n + 3 =>
        rw [show List.take (n + 3) closeSequence = closeSequence from by
          simp [closeSequence]]
        rfl
  · match k with
    | 0 => exact absurd rfl hch
    | 1 => exact absurd rfl hch
    | 2 => exact absurd rfl hch
    | n + 3 =>
        rw [show List.take (n + 3) closeSequence = closeSequence from by
          simp [closeSequence]]
        rfl
  · rw [hfinal]
    exact not_mem_filter_fst s.clients id

/-- C6 witness: tearing down the connection of id "x" from a registry
holding only "x", the full three-action sequence changes the registry,
both task flags end false, and "x" is gone from the registry. -/
theorem websocket_close_cancel_before_unregister_witness :
    ((closeSequence.take 3).foldl (applyCloseAction "x")
        (ConnState.mk [("x", Queue.mk false [])] true true)).sendTaskAlive
      = false ∧
    ((closeSequence.take 3).foldl (applyCloseAction "x")
        (ConnState.mk [("x", Queue.mk false [])] true true)).recvTaskAlive
      = false ∧
    (websocket_close "x"
        (ConnState.mk [("x", Queue.mk false [])] true true)).sendTaskAlive
      = false ∧
    (websocket_close "x"
        (ConnState.mk [("x", Queue.mk false [])] true true)).recvTaskAlive
      = false ∧
    "x" ∉ (websocket_close "x"
        (ConnState.mk [("x", Queue.mk false [])] true true)).clients.map
        Prod.fst :=
  websocket_close_cancel_before_unregister
    (ConnState.mk [("x", Queue.mk false [])] true true) "x" 3 (by decide)

/-- C8: registration appends an entry created by TickableEntry::new whose
first deadline is now + frequency, strictly after registration time for a
positive frequency; a scheduler scan at any time t before that deadline
leaves the fresh entry unfired and unchanged. -/
theorem register_first_fire_delayed (es : List TickableEntry)
    (now f t : Nat) (hf : 0 < f) (ht : t < now + f) :
    (TickableEntry.new now f).next_tick = now + f ∧
    now < (TickableEntry.new now f).next_tick ∧
    Ticker.add_tickable es now f = es ++ [TickableEntry.new now f] ∧
    (tickerIter (Ticker.add_tickable es now f) t).1 =
      (tickerIter es t).1 ++ [TickableEntry.new now f] := by
  refine ⟨rfl, Nat.lt_add_of_pos_right hf, rfl, ?_⟩
  have hne : ¬ (TickableEntry.new now f).next_tick ≤ t := by
    simp only [TickableEntry.new]
    omega
  simp [tickerIter, Ticker.add_tickable, fireOne, hne]

/-- C8 witness: registering frequency 100 at time 0 puts the first
deadline at 100, and a scan at time 50 does not fire the entry. -/
theorem register_first_fire_delayed_witness :
    (TickableEntry.new 0 100).next_tick = 0 + 100 ∧
    0 < (TickableEntry.new 0 100).next_tick ∧
    Ticker.add_tickable [] 0 100 = [] ++ [TickableEntry.new 0 100] ∧
    (tickerIter (Ticker.add_tickable [] 0 100) 50).1 =
      (tickerIter [] 50).1 ++ [TickableEntry.new 0 100] :=
  register_first_fire_delayed [] 0 100 50 (by decide) (by decide)

/-- C3: the invariant next_tick = last_tick + frequency holds for an
entry as TickableEntry::new creates it at registration (add_tickable
appends exactly such an entry), and is preserved by a scheduler scan:
every entry of the scanned list satisfies it again, whether it fired or
not. -/
theorem tick_invariant_preserved (es : List TickableEntry)
    (now t f i : Nat) (hinv : ∀ e ∈ es, tickInv e) :
    tickInv (TickableEntry.new t f) ∧
    Ticker.add_tickable es t f = es ++ [TickableEntry.new t f] ∧
    tickInv ((tickerIter es now).1.getD i (TickableEntry.new t f)) := by
  refine ⟨rfl, rfl, ?_⟩
  have hmap : (tickerIter es now).1 = es.map (fireOne now) := rfl
  rw [hmap]
  refine tickInv_getD (es.map (fireOne now)) i (TickableEntry.new t f) rfl ?_
  intro e he
  obtain ⟨a, ha, rfl⟩ := List.mem_map.mp he
  exact tickInv_fireOne now a (hinv a ha)

/-- C3 witness: a freshly registered entry satisfies the invariant, and
after a scan at time 120 that fires it, the updated entry satisfies it
again. -/
theorem tick_invariant_preserved_witness :
    tickInv (TickableEntry.new 5 7) ∧
    Ticker.add_tickable [TickableEntry.new 0 100] 5 7 =
      [TickableEntry.new 0 100] ++ [TickableEntry.new 5 7] ∧
    tickInv ((tickerIter [TickableEntry.new 0 100] 120).1.getD 0
      (TickableEntry.new 5 7)) :=
  tick_invariant_preserved [TickableEntry.new 0 100] 120 5 7 0 (by decide)

/-- C2 counterexample: one entry with frequency 100 and deadline 100, and
an iteration starting at time 0. The loop sleeps until the deadline, so
the moment of waking is 100 and the entry's deadline 100 <= 100 is due at
waking — yet the entry does not fire and its deadline is not recomputed:
the scan compares deadlines against the time sampled before the sleep. -/
theorem tickerIter_due_at_wake_not_fired :
    (tickerIter [TickableEntry.mk 100 0 100 0] 0).2 = 100 ∧
    (100 : Nat) ≤ 100 ∧
    (tickerIter [TickableEntry.mk 100 0 100 0] 0).1 =
      [TickableEntry.mk 100 0 100 0] := by
  refine ⟨rfl, le_refl 100, rfl⟩

/-- C2 (amended): in one iteration of the scheduler loop the sleep target
is the minimum next-deadline over the registered entries (the fallback
window now + 1000 ms when none are registered, and the loop does not
sleep when the minimum is already past); the minimum really is attained
by and bounds every registered deadline; and every entry whose deadline
is <= the time sampled at the start of the iteration, before the sleep,
fires: its tick counter advances and its next deadline becomes that
sampled reference time plus its frequency, while every other entry is
untouched. -/
theorem tickerIter_fires_presleep_due (es : List TickableEntry)
    (now i : Nat) :
    (tickerIter es now).2 =
      max now ((minDeadline es).getD (now + 1000)) ∧
    (minDeadline es).isNone = es.isEmpty ∧
    (es = [] ∨
      (minDeadline es).getD (now + 1000) ∈
        es.map (fun e => e.next_tick)) ∧
    (es.all (fun e =>
      decide ((minDeadline es).getD (now + 1000) ≤ e.next_tick))) = true ∧
    (tickerIter es now).1[i]? = (es[i]?).map (fun e =>
      if e.next_tick ≤ now then
        TickableEntry.mk e.frequency now (now + e.frequency) (e.ticks + 1)
      else e) := by
  refine ⟨?_, minDeadline_isNone_eq es, ?_, ?_, ?_⟩
  · show (if now < (minDeadline es).getD (now + 1000) then
        (minDeadline es).getD (now + 1000) else now) = _
    split <;> omega
  · by_cases he : es = []
    · exact Or.inl he
    · obtain ⟨m, hm, hmem⟩ := minDeadline_mem es he
      rw [hm]
      exact Or.inr hmem
  · rw [List.all_eq_true]
    intro e he
    rw [decide_eq_true_eq]
    cases hm : minDeadline es with
    | none =>
        have : es.isEmpty = true := by rw [← minDeadline_isNone_eq, hm]; rfl
        rw [List.isEmpty_iff] at this
        rw [this] at he
        exact absurd he (List.not_mem_nil e)
    | some m => exact minDeadline_le es m hm e he
  · show (es.map (fireOne now))[i]? = _
    rw [List.getElem?_map]
    cases h : es[i]? with
    | none => rfl
    | some e =>
        show some (fireOne now e) = some (if e.next_tick ≤ now then
          TickableEntry.mk e.frequency now (now + e.frequency) (e.ticks + 1)
          else e)
        unfold fireOne TickableEntry.update_next_tick
        split <;> rfl

end Glimpse
